import Mathlib

/-!
Verification of the HyperLogLog register codec in
`src/hyperloglog/compression.py`.

The module is a pure bit-level codec with four operations: dense
`pack_registers` / `unpack_registers` and sparse
`compress_sparse_registers` / `decompress_sparse_registers`.  Byte strings
are modelled as lists of byte values (naturals below 256, little-endian
order, index 0 = byte 0).  Register arrays are numpy integer arrays and are
modelled as lists of their element values; entries of the sparse codec are
pairs.  Python exceptions are modelled by an error type, so every operation
returns `Except`.

Two numpy-specific behaviors of the source are part of the model because
the dense packing path runs straight into them:

* `if not registers:` calls `bool()` on a numpy array, which is `False` for
  an empty array, the truth value of the single element for a one-element
  array, and raises `ValueError` for any longer array (`ndarrayBool`);
* iterating a numpy integer array yields numpy scalar objects, which are
  never instances of the Python `int` class, so the per-element
  `isinstance(val, int)` validation fails for every element
  (`numpyIntIsPyInt`).

The bit accumulators are modelled as exact unbounded integers, the
arbitrary-precision arithmetic the packing code is written in terms of.
-/

/-- Python exception values raised by the codec: `ValueError`,
`OverflowError` and `ZeroDivisionError`. -/
inductive PyExc where
  | valueError (msg : String)
  | overflowError (msg : String)
  | zeroDivisionError
deriving DecidableEq, Repr

/-- `int.from_bytes(data, byteorder="little")`. -/
def intFromBytesLE : List Nat → Nat
  | [] => 0
  | byte :: rest => byte + 256 * intFromBytesLE rest

/-- The little-endian base-256 digits of `n`, exactly `len` bytes, low byte
first. -/
def natToBytesLE : Nat → Nat → List Nat
  | 0, _ => []
  | len + 1, n => n % 256 :: natToBytesLE len (n / 256)

/-- `n.to_bytes(len, byteorder="little")`: yields the `len` little-endian
bytes of `n`, raising `OverflowError` when `n` does not fit in `len`
bytes. -/
def intToBytes (n len : Nat) : Except PyExc (List Nat) :=
  if n < 2 ^ (8 * len) then .ok (natToBytesLE len n)
  else .error (.overflowError "int too big to convert")

/-- `isinstance(val, int)` for an element obtained by iterating a numpy
integer array: iteration yields numpy scalar objects (`np.int32` and
friends), which are not instances of the Python `int` class, so the test is
false for every element. -/
def numpyIntIsPyInt (_ : Int) : Bool := false

/-- `bool(registers)` for a numpy integer array, as evaluated by
`if not registers:`: an empty array is falsy, a one-element array has the
truth value of its element, and an array with more than one element raises
`ValueError`. -/
def ndarrayBool : List Int → Except PyExc Bool
  | [] => .ok false
  | [v] => .ok (v != 0)
  | _ :: _ :: _ =>
    .error (.valueError "The truth value of an array with more than one element is ambiguous")

/-- The per-element validation loop of `pack_registers`: each element must
be a Python `int`, non-negative, and at most `max_val = (1 << binbits) - 1`. -/
def checkRegisters (binbits : Int) : List Int → Except PyExc Unit
  | [] => .ok ()
  | val :: rest =>
    if ¬ numpyIntIsPyInt val then .error (.valueError "Register must be an integer")
    else if val < 0 then .error (.valueError "Register must be non-negative")
    else if val > (2 ^ binbits.toNat - 1 : Int) then
      .error (.valueError "Register value exceeds the binbits-bit limit")
    else checkRegisters binbits rest

/-- The dense packing loop:
`bitstream |= (val & ((1 << binbits) - 1)) << (i * binbits)`.
Values reaching this loop passed the non-negativity check, so Python's `&`
on them agrees with `&&&` on their natural-number values. -/
def packBits (binbits : Nat) : Nat → List Int → Nat
  | _, [] => 0
  | i, val :: rest =>
    ((val.toNat &&& ((1 <<< binbits) - 1)) <<< (i * binbits)) ||| packBits binbits (i + 1) rest

/-- `pack_registers(registers, binbits)`.  The leading
`isinstance(registers, np.ndarray)` / integer-dtype check always passes for
the arrays this model ranges over and is not represented; `binbits` is a
Python `int`. -/
def pack_registers (registers : List Int) (binbits : Int) : Except PyExc (List Nat) :=
  if binbits ≤ 0 then .error (.valueError "binbits must be a positive integer")
  else if binbits > 64 then .error (.valueError "binbits must be <= 64 to prevent memory issues")
  else
    match ndarrayBool registers with
    | .error e => .error e
    | .ok false => .ok []
    | .ok true =>
      match checkRegisters binbits registers with
      | .error e => .error e
      | .ok _ =>
        let total_bits := registers.length * binbits.toNat
        if total_bits > 2 ^ 20 then
          .error (.overflowError "Total bits too large, risk of memory overflow")
        else intToBytes (packBits binbits.toNat 0 registers) ((total_bits + 7) / 8)

/-- `unpack_registers(data, m, binbits)`.  The `isinstance(data, bytes)`
check always passes for the byte lists this model ranges over; the numpy
result array is returned as the list of extracted values (each is below
`2 ^ binbits`, and for the bit widths the claims exercise these fit the
`np.int32` destination exactly). -/
def unpack_registers (data : List Nat) (m : Int) (binbits : Int) : Except PyExc (List Nat) :=
  if m < 0 then .error (.valueError "m must be a non-negative integer")
  else if binbits ≤ 0 then .error (.valueError "binbits must be a positive integer")
  else if binbits > 64 then .error (.valueError "binbits must be <= 64 to prevent memory issues")
  else if m = 0 then .ok []
  else
    let required_bits := m.toNat * binbits.toNat
    let required_bytes := (required_bits + 7) / 8
    if data.length < required_bytes then .error (.valueError "Insufficient data")
    else if required_bits > 2 ^ 20 then
      .error (.overflowError "Total bits too large, risk of memory overflow")
    else
      let bitstream := intFromBytesLE data
      let mask := (1 <<< binbits.toNat) - 1
      .ok ((List.range m.toNat).map fun i => (bitstream >>> (i * binbits.toNat)) &&& mask)

/-- The sparse compression loop:
`entry = (idx << rbits) | (rho & ((1 << rbits) - 1))`;
`bitstream |= entry << total_bits`; `total_bits += entrybits`, with `eb`
the entry width `b + rbits` and the first argument the running bit
offset. -/
def sparseBits (rbits eb : Nat) : Nat → List (Nat × Nat) → Nat
  | _, [] => 0
  | total_bits, (idx, rho) :: rest =>
    (((idx <<< rbits) ||| (rho &&& ((1 <<< rbits) - 1))) <<< total_bits) |||
      sparseBits rbits eb (total_bits + eb) rest

/-- `compress_sparse_registers(sparse_registers, b, rbits)`.  After the
loop the accumulated `total_bits` equals `len(sparse_registers) * entrybits`. -/
def compress_sparse_registers (sparse_registers : List (Nat × Nat)) (b rbits : Nat) :
    Except PyExc (List Nat) :=
  let entrybits := b + rbits
  let bitstream := sparseBits rbits entrybits 0 sparse_registers
  let total_bits := sparse_registers.length * entrybits
  intToBytes bitstream ((total_bits + 7) / 8)

/-- `decompress_sparse_registers(data, b, rbits)`.  When `entrybits` is `0`
the `num_entries` division raises `ZeroDivisionError` in Python, modelled
by the explicit test.  The source writes each extracted `idx` and `rho`
into a preallocated `np.empty((num_entries, 2), dtype=np.int32)` array;
the extracted fields are non-negative Python ints, and such a value does
not survive the `int32` assignment unless it is below `2 ^ 31`: current
numpy raises `OverflowError` on the first out-of-range assignment, values
at or beyond `2 ^ 63` raise `OverflowError` in every numpy version, and
older numpy instead wraps values between `2 ^ 31` and `2 ^ 63`.  The model
performs the same range test over all extracted fields and reports the
`OverflowError`; the theorems below either stay below `2 ^ 31`, where
every numpy version stores the field unchanged, use inputs at or beyond
`2 ^ 63`, where every version raises, or conclude only that the result
differs from the unbounded field values. -/
def decompress_sparse_registers (data : List Nat) (b rbits : Nat) :
    Except PyExc (List (Nat × Nat)) :=
  let bitstream := intFromBytesLE data
  let entrybits := b + rbits
  let total_bits := data.length * 8
  if entrybits = 0 then .error .zeroDivisionError
  else
    let num_entries := total_bits / entrybits
    let mask := (1 <<< entrybits) - 1
    let rhomask := (1 <<< rbits) - 1
    let entries := (List.range num_entries).map fun i =>
      let entry := (bitstream >>> (i * entrybits)) &&& mask
      (entry >>> rbits, entry &&& rhomask)
    if ∀ p ∈ entries, p.1 < 2 ^ 31 ∧ p.2 < 2 ^ 31 then .ok entries
    else .error (.overflowError "Python integer out of bounds for int32")

/-! ## Dense codec claims -/

/-- C1 (dense round-trip): the round-trip law fails on the code.  At the
in-range input `registers = [1, 1]`, `binbits = 1` the emptiness test
`if not registers:` calls `bool()` on a two-element numpy array, which
raises `ValueError`, so `unpack(pack(R, binbits), m, binbits)` cannot
return `R` for any register array of length at least two. -/
theorem dense_roundtrip_fails_on_code :
    (pack_registers [1, 1] 1).bind (fun data => unpack_registers data 2 1) =
      .error (.valueError
        "The truth value of an array with more than one element is ambiguous") := rfl

/-- C2 (dense concrete vector): `pack_registers([1, 2, 3], 4)` does not
return the bytes `[0x21, 0x03]` — it raises `ValueError` at the array
truthiness test — while the unpack direction of the vector does hold:
`unpack_registers([0x21, 0x03], 3, 4) = [1, 2, 3]`. -/
theorem dense_concrete_vector_on_code :
    pack_registers [1, 2, 3] 4 =
      .error (.valueError
        "The truth value of an array with more than one element is ambiguous") ∧
    unpack_registers [0x21, 0x03] 3 4 = .ok [1, 2, 3] := ⟨rfl, rfl⟩

/-- C3 (length law): the length law fails on the code.  At
`registers = [0]`, `binbits = 4` the one-element zero array is falsy, so
`pack_registers` returns empty bytes, whose length `0` is not the required
`ceil(1 * 4 / 8) = 1`. -/
theorem length_law_fails_on_code :
    pack_registers [0] 4 = .ok [] ∧ List.length ([] : List Nat) ≠ (1 * 4 + 7) / 8 :=
  ⟨rfl, by decide⟩

/-- C4 (capacity ceiling): the claimed `OverflowError` is never reached.
On 300000 registers at `binbits = 4` the emptiness test raises
`ValueError` (ambiguous truth value of a multi-element numpy array) before
the `2 ^ 20` capacity check runs. -/
theorem capacity_ceiling_unreachable_on_code :
    pack_registers (List.replicate 300000 0) 4 =
      .error (.valueError
        "The truth value of an array with more than one element is ambiguous") := rfl

/-- C7 (boundary rejection): `pack_registers([-1], 4)` and
`pack_registers([16], 4)` both fail with `ValueError` (the per-element
type check fires: numpy scalars are not Python ints, so the loop rejects
the element before the sign and range checks are consulted), and
`unpack_registers(empty bytes, 3, 4)` fails with the insufficient-data
`ValueError`. -/
theorem boundary_rejection :
    pack_registers [-1] 4 = .error (.valueError "Register must be an integer") ∧
    pack_registers [16] 4 = .error (.valueError "Register must be an integer") ∧
    unpack_registers [] 3 4 = .error (.valueError "Insufficient data") :=
  ⟨rfl, rfl, rfl⟩

/-- C9 (empty input): for every `binbits` in `[1, 64]`,
`pack_registers([], binbits)` returns empty bytes and
`unpack_registers(data, 0, binbits)` returns the empty sequence for every
byte string `data`. -/
theorem empty_input_law (binbits : Int) (h1 : 1 ≤ binbits) (h2 : binbits ≤ 64) :
    pack_registers [] binbits = .ok [] ∧
      ∀ data : List Nat, unpack_registers data 0 binbits = .ok [] := by
  constructor
  · unfold pack_registers
    rw [if_neg (by omega), if_neg (by omega)]
    rfl
  · intro data
    unfold unpack_registers
    rw [if_neg (by omega), if_neg (by omega), if_neg (by omega), if_pos rfl]

/-- Witness for C9 at `binbits = 4` and the two-byte data `[170, 255]`. -/
theorem empty_input_law_witness :
    pack_registers [] 4 = .ok [] ∧ unpack_registers [170, 255] 0 4 = .ok [] :=
  ⟨(empty_input_law 4 (by decide) (by decide)).1,
   (empty_input_law 4 (by decide) (by decide)).2 [170, 255]⟩

/-- C10 (zero singleton): for every `binbits` in `[1, 64]`,
`pack_registers([0], binbits)` returns empty bytes: `bool()` of the
one-element zero array is `False`, so the emptiness test treats the array
as empty input. -/
theorem zero_singleton_packs_empty (binbits : Int) (h1 : 1 ≤ binbits) (h2 : binbits ≤ 64) :
    pack_registers [0] binbits = .ok [] := by
  unfold pack_registers
  rw [if_neg (by omega), if_neg (by omega)]
  rfl

/-- Witness for C10 at `binbits = 7`. -/
theorem zero_singleton_packs_empty_witness : pack_registers [0] 7 = .ok [] :=
  zero_singleton_packs_empty 7 (by decide) (by decide)

/-! ## Sparse codec claims -/

/-- C8 counterexample: `compress_sparse_registers` is not error-free on
out-of-range fields.  A single entry with the out-of-range index `1024`
(for `b = 4`) makes the accumulator need 17 bits while the output length
is computed for 10, so the final `to_bytes` call raises `OverflowError`. -/
theorem sparse_encode_error_on_large_index :
    compress_sparse_registers [(1024, 0)] 4 6 =
      .error (.overflowError "int too big to convert") := rfl

/-! ### Arithmetic view of the sparse bitstream -/

/-- The composite field value of one sparse entry,
`(idx << rbits) | (rho & ((1 << rbits) - 1))`, as exact arithmetic:
the index in the high bits, the masked rho in the low `rbits` bits. -/
def entryVal (rbits : Nat) (p : Nat × Nat) : Nat := p.1 * 2 ^ rbits + p.2 % 2 ^ rbits

/-- The sparse accumulator read as a little-endian base `2 ^ eb` numeral
whose digits are the composite entry fields. -/
def sparseVal (rbits eb : Nat) : List (Nat × Nat) → Nat
  | [] => 0
  | p :: rest => entryVal rbits p + 2 ^ eb * sparseVal rbits eb rest

theorem shift_mask_eq (V off w : Nat) :
    (V >>> off) &&& ((1 <<< w) - 1) = V / 2 ^ off % 2 ^ w := by
  rw [Nat.shiftRight_eq_div_pow, Nat.one_shiftLeft, Nat.and_pow_two_sub_one_eq_mod]

theorem entry_eq_entryVal (rbits idx rho : Nat) :
    (idx <<< rbits) ||| (rho &&& ((1 <<< rbits) - 1)) = entryVal rbits (idx, rho) := by
  have h : rho % 2 ^ rbits < 2 ^ rbits := Nat.mod_lt _ (Nat.two_pow_pos rbits)
  rw [Nat.one_shiftLeft, Nat.and_pow_two_sub_one_eq_mod, Nat.shiftLeft_eq,
    Nat.mul_comm idx, ← Nat.mul_add_lt_is_or h idx]
  simp only [entryVal]
  ring

theorem entryVal_lt (rbits b : Nat) (p : Nat × Nat) (h : p.1 < 2 ^ b) :
    entryVal rbits p < 2 ^ (b + rbits) := by
  have h2 : p.2 % 2 ^ rbits < 2 ^ rbits := Nat.mod_lt _ (Nat.two_pow_pos rbits)
  calc entryVal rbits p = p.1 * 2 ^ rbits + p.2 % 2 ^ rbits := rfl
    _ < (p.1 + 1) * 2 ^ rbits := by rw [Nat.succ_mul]; omega
    _ ≤ 2 ^ b * 2 ^ rbits := Nat.mul_le_mul_right _ h
    _ = 2 ^ (b + rbits) := (pow_add 2 b rbits).symm

theorem entryVal_split (rbits idx rho : Nat) (h : rho < 2 ^ rbits) :
    entryVal rbits (idx, rho) / 2 ^ rbits = idx ∧
      entryVal rbits (idx, rho) % 2 ^ rbits = rho := by
  simp only [entryVal]
  rw [Nat.mod_eq_of_lt h]
  constructor
  · rw [Nat.add_comm, Nat.mul_comm, Nat.add_mul_div_left _ _ (Nat.two_pow_pos rbits),
      Nat.div_eq_of_lt h, Nat.zero_add]
  · rw [Nat.mul_comm, Nat.mul_add_mod, Nat.mod_eq_of_lt h]

theorem sparseVal_lt (b rbits : Nat) (E : List (Nat × Nat))
    (h : ∀ p ∈ E, p.1 < 2 ^ b) :
    sparseVal rbits (b + rbits) E < 2 ^ (E.length * (b + rbits)) := by
  induction E with
  | nil => simp [sparseVal]
  | cons p rest ih =>
    have hp := entryVal_lt rbits b p (h p (List.mem_cons_self p rest))
    have hr := ih fun q hq => h q (List.mem_cons_of_mem p hq)
    have key : entryVal rbits p + 2 ^ (b + rbits) * sparseVal rbits (b + rbits) rest
        < 2 ^ (b + rbits) * (sparseVal rbits (b + rbits) rest + 1) := by
      rw [Nat.mul_succ]; omega
    calc sparseVal rbits (b + rbits) (p :: rest)
        = entryVal rbits p + 2 ^ (b + rbits) * sparseVal rbits (b + rbits) rest := rfl
      _ < 2 ^ (b + rbits) * (sparseVal rbits (b + rbits) rest + 1) := key
      _ ≤ 2 ^ (b + rbits) * 2 ^ (rest.length * (b + rbits)) := Nat.mul_le_mul_left _ hr
      _ = 2 ^ ((p :: rest).length * (b + rbits)) := by
          rw [← pow_add, List.length_cons]; congr 1; ring

theorem sparseBits_eq_sparseVal (b rbits : Nat) (E : List (Nat × Nat))
    (h : ∀ p ∈ E, p.1 < 2 ^ b) :
    ∀ t, sparseBits rbits (b + rbits) t E = 2 ^ t * sparseVal rbits (b + rbits) E := by
  induction E with
  | nil => intro t; simp [sparseBits, sparseVal]
  | cons p rest ih =>
    intro t
    obtain ⟨idx, rho⟩ := p
    have hidx : idx < 2 ^ b := h (idx, rho) (List.mem_cons_self _ _)
    have hlt : entryVal rbits (idx, rho) < 2 ^ (b + rbits) := entryVal_lt rbits b _ hidx
    have hrec := ih (fun q hq => h q (List.mem_cons_of_mem _ hq)) (t + (b + rbits))
    show (((idx <<< rbits) ||| (rho &&& ((1 <<< rbits) - 1))) <<< t) |||
        sparseBits rbits (b + rbits) (t + (b + rbits)) rest
      = 2 ^ t * sparseVal rbits (b + rbits) ((idx, rho) :: rest)
    rw [entry_eq_entryVal, hrec, Nat.shiftLeft_eq]
    have hb : entryVal rbits (idx, rho) * 2 ^ t < 2 ^ (t + (b + rbits)) := by
      calc entryVal rbits (idx, rho) * 2 ^ t < 2 ^ (b + rbits) * 2 ^ t :=
            mul_lt_mul_of_pos_right hlt (Nat.two_pow_pos t)
        _ = 2 ^ (t + (b + rbits)) := by rw [← pow_add]; congr 1; ring
    rw [Nat.lor_comm, ← Nat.mul_add_lt_is_or hb (sparseVal rbits (b + rbits) rest)]
    show 2 ^ (t + (b + rbits)) * sparseVal rbits (b + rbits) rest
        + entryVal rbits (idx, rho) * 2 ^ t
      = 2 ^ t * (entryVal rbits (idx, rho) + 2 ^ (b + rbits) * sparseVal rbits (b + rbits) rest)
    rw [pow_add]
    ring

theorem sparseVal_extract (b rbits : Nat) (E : List (Nat × Nat))
    (h : ∀ p ∈ E, p.1 < 2 ^ b) :
    ∀ i (hi : i < E.length),
      sparseVal rbits (b + rbits) E / 2 ^ (i * (b + rbits)) % 2 ^ (b + rbits)
        = entryVal rbits E[i] := by
  induction E with
  | nil => intro i hi; exact absurd hi (by simp)
  | cons p rest ih =>
    intro i hi
    cases i with
    | zero =>
      simp only [List.getElem_cons_zero]
      show (entryVal rbits p + 2 ^ (b + rbits) * sparseVal rbits (b + rbits) rest)
          / 2 ^ (0 * (b + rbits)) % 2 ^ (b + rbits) = entryVal rbits p
      rw [Nat.zero_mul, pow_zero, Nat.div_one, Nat.add_mul_mod_self_left]
      exact Nat.mod_eq_of_lt (entryVal_lt rbits b p (h p (List.mem_cons_self _ _)))
    | succ i =>
      have hi' : i < rest.length := by simpa using hi
      have step : sparseVal rbits (b + rbits) (p :: rest) / 2 ^ ((i + 1) * (b + rbits))
          = sparseVal rbits (b + rbits) rest / 2 ^ (i * (b + rbits)) := by
        have e1 : (2 : Nat) ^ ((i + 1) * (b + rbits))
            = 2 ^ (b + rbits) * 2 ^ (i * (b + rbits)) := by
          rw [← pow_add]; congr 1; ring
        rw [e1, ← Nat.div_div_eq_div_mul]
        congr 1
        show (entryVal rbits p + 2 ^ (b + rbits) * sparseVal rbits (b + rbits) rest)
            / 2 ^ (b + rbits) = sparseVal rbits (b + rbits) rest
        rw [Nat.add_mul_div_left _ _ (Nat.two_pow_pos _),
          Nat.div_eq_of_lt (entryVal_lt rbits b p (h p (List.mem_cons_self _ _))),
          Nat.zero_add]
      rw [step, ih (fun q hq => h q (List.mem_cons_of_mem _ hq)) i hi']
      simp [List.getElem_cons_succ]

theorem natToBytesLE_length (k : Nat) : ∀ n, (natToBytesLE k n).length = k := by
  induction k with
  | zero => intro n; rfl
  | succ k ih => intro n; simp [natToBytesLE, ih]

theorem intFromBytes_natToBytes (k : Nat) :
    ∀ n, intFromBytesLE (natToBytesLE k n) = n % 2 ^ (8 * k) := by
  induction k with
  | zero => intro n; simp [natToBytesLE, intFromBytesLE, Nat.mod_one]
  | succ k ih =>
    intro n
    show n % 256 + 256 * intFromBytesLE (natToBytesLE k (n / 256)) = n % 2 ^ (8 * (k + 1))
    rw [ih]
    have e : (2 : Nat) ^ (8 * (k + 1)) = 256 * 2 ^ (8 * k) := by
      rw [Nat.mul_succ, pow_add]
      norm_num [Nat.mul_comm]
    rw [e, Nat.mod_mul]

/-- For entry widths of at most 31 bits, every field the decoder extracts
(each is a slice of an `entrybits`-wide composite field) lies below
`2 ^ 31`, so it survives the `np.int32` store unchanged in every numpy
version. -/
theorem field_fits_int32 (V i b rbits : Nat) (h31 : b + rbits ≤ 31) :
    ((V >>> (i * (b + rbits))) &&& ((1 <<< (b + rbits)) - 1)) >>> rbits < 2 ^ 31 ∧
    ((V >>> (i * (b + rbits))) &&& ((1 <<< (b + rbits)) - 1)) &&& ((1 <<< rbits) - 1)
      < 2 ^ 31 := by
  have hentry : (V >>> (i * (b + rbits))) &&& ((1 <<< (b + rbits)) - 1) < 2 ^ 31 := by
    rw [shift_mask_eq]
    exact lt_of_lt_of_le (Nat.mod_lt _ (Nat.two_pow_pos _))
      (Nat.pow_le_pow_right (by norm_num) h31)
  refine ⟨lt_of_le_of_lt ?_ hentry, lt_of_le_of_lt ?_ hentry⟩
  · rw [Nat.shiftRight_eq_div_pow]
    exact Nat.div_le_self _ _
  · rw [Nat.one_shiftLeft rbits, Nat.and_pow_two_sub_one_eq_mod]
    exact Nat.mod_le _ _

/-- `decompress_sparse_registers` on a positive entry width of at most 31
bits (where the `int32` stores are exact), with the shift-and-mask field
extraction rewritten as division and remainder. -/
theorem decompress_eq (data : List Nat) (b rbits : Nat) (h : 0 < b + rbits)
    (h31 : b + rbits ≤ 31) :
    decompress_sparse_registers data b rbits
      = .ok ((List.range (data.length * 8 / (b + rbits))).map fun i =>
          (intFromBytesLE data / 2 ^ (i * (b + rbits)) % 2 ^ (b + rbits) / 2 ^ rbits,
           intFromBytesLE data / 2 ^ (i * (b + rbits)) % 2 ^ (b + rbits) % 2 ^ rbits)) := by
  simp only [decompress_sparse_registers]
  rw [if_neg (by omega)]
  split
  next hall =>
    refine congrArg Except.ok (List.map_congr_left fun i _ => ?_)
    rw [shift_mask_eq, Nat.shiftRight_eq_div_pow, Nat.one_shiftLeft,
      Nat.and_pow_two_sub_one_eq_mod]
  next hnot =>
    exfalso
    apply hnot
    intro p hp
    obtain ⟨i, hi, rfl⟩ := List.mem_map.mp hp
    exact field_fits_int32 (intFromBytesLE data) i b rbits h31

/-- C5 counterexample: the sparse round-trip claim as stated fails on the
code at two inputs that are in range and satisfy the no-padding-ambiguity
restriction.  At the degenerate widths `b = 0`, `rbits = 0` with the empty
entry list the decoder raises `ZeroDivisionError` on the `num_entries`
division, and at `E = [(2 ^ 32, 0)]`, `b = 33`, `rbits = 7` the decoded
index does not fit the `np.int32` output array (current numpy raises
`OverflowError`, older numpy wraps it to a different value), so the
decoder never returns `E`. -/
theorem sparse_roundtrip_degenerate_cex :
    (8 * ((List.length ([] : List (Nat × Nat)) * (0 + 0) + 7) / 8) / (0 + 0)
        = List.length ([] : List (Nat × Nat)) ∧
      (compress_sparse_registers [] 0 0).bind
          (fun data => decompress_sparse_registers data 0 0)
        ≠ .ok ([] : List (Nat × Nat))) ∧
    (8 * ((List.length [((4294967296 : Nat), (0 : Nat))] * (33 + 7) + 7) / 8) / (33 + 7)
        = List.length [((4294967296 : Nat), (0 : Nat))] ∧
      (compress_sparse_registers [(4294967296, 0)] 33 7).bind
          (fun data => decompress_sparse_registers data 33 7)
        ≠ .ok [((4294967296 : Nat), (0 : Nat))]) := by
  refine ⟨⟨rfl, ?_⟩, ⟨rfl, ?_⟩⟩
  · show Except.error PyExc.zeroDivisionError ≠ Except.ok ([] : List (Nat × Nat))
    exact fun h => Except.noConfusion h
  · show Except.error (PyExc.overflowError "Python integer out of bounds for int32")
        ≠ Except.ok [((4294967296 : Nat), (0 : Nat))]
    exact fun h => Except.noConfusion h

/-- C5 amended: for entry widths `b + rbits` between 1 and 31 (positive,
so the entry-count division is defined, and at most 31 bits, so every
decoded field fits the `np.int32` output array exactly), for every entry
list `E` with all `index < 2 ^ b` and all `rho < 2 ^ rbits`, restricted to
inputs with no trailing-padding ambiguity
(`8 * ceil(len(E) * (b + rbits) / 8) / (b + rbits) = len(E)`),
decompressing the compressed entries returns `E`. -/
theorem sparse_roundtrip_pos (E : List (Nat × Nat)) (b rbits : Nat)
    (heb : 0 < b + rbits) (h31 : b + rbits ≤ 31)
    (hidx : ∀ p ∈ E, p.1 < 2 ^ b) (hrho : ∀ p ∈ E, p.2 < 2 ^ rbits)
    (hpad : 8 * ((E.length * (b + rbits) + 7) / 8) / (b + rbits) = E.length) :
    (compress_sparse_registers E b rbits).bind
      (fun data => decompress_sparse_registers data b rbits) = .ok E := by
  have hV := sparseVal_lt b rbits E hidx
  have hbits : E.length * (b + rbits) ≤ 8 * ((E.length * (b + rbits) + 7) / 8) := by omega
  have hVle : sparseVal rbits (b + rbits) E
      < 2 ^ (8 * ((E.length * (b + rbits) + 7) / 8)) :=
    lt_of_lt_of_le hV (Nat.pow_le_pow_right (by norm_num) hbits)
  have hcomp : compress_sparse_registers E b rbits
      = .ok (natToBytesLE ((E.length * (b + rbits) + 7) / 8)
          (sparseVal rbits (b + rbits) E)) := by
    show intToBytes (sparseBits rbits (b + rbits) 0 E) ((E.length * (b + rbits) + 7) / 8) = _
    rw [sparseBits_eq_sparseVal b rbits E hidx 0, pow_zero, one_mul]
    unfold intToBytes
    rw [if_pos hVle]
  rw [hcomp]
  show decompress_sparse_registers
      (natToBytesLE ((E.length * (b + rbits) + 7) / 8) (sparseVal rbits (b + rbits) E))
      b rbits = .ok E
  rw [decompress_eq _ b rbits heb h31, natToBytesLE_length, intFromBytes_natToBytes,
    Nat.mod_eq_of_lt hVle, Nat.mul_comm ((E.length * (b + rbits) + 7) / 8) 8, hpad]
  refine congrArg Except.ok ?_
  apply List.ext_getElem
  · simp
  · intro i h1 h2
    simp only [List.getElem_map, List.getElem_range]
    rw [sparseVal_extract b rbits E hidx i h2]
    have hr : E[i].2 < 2 ^ rbits := hrho _ (List.getElem_mem h2)
    have hs := entryVal_split rbits E[i].1 E[i].2 hr
    rw [Prod.mk.eta] at hs
    rw [hs.1, hs.2]

/-- Witness for C5 at the specification's own sparse concrete vector:
entries `[(0, 5), (1, 10)]`, `b = 4`, `rbits = 6` (3 output bytes, 24 bits,
holding no extra 10-bit slot). -/
theorem sparse_roundtrip_pos_witness :
    (compress_sparse_registers [(0, 5), (1, 10)] 4 6).bind
      (fun data => decompress_sparse_registers data 4 6) = .ok [(0, 5), (1, 10)] :=
  sparse_roundtrip_pos [(0, 5), (1, 10)] 4 6 (by decide) (by decide) (by decide) (by decide)
    (by decide)

/-- C6 counterexample: the decoder does not always return
`(len(data) * 8) / (b + rbits)` entries.  At entry width `0` (`b = 0`,
`rbits = 0`) it raises `ZeroDivisionError`, and on 13 bytes of `0xFF` with
`b = 98`, `rbits = 6` (one 104-bit entry, so the claimed count is 1) the
extracted index is `2 ^ 98 - 1`, beyond `2 ^ 63`, so the `np.int32`
assignment raises `OverflowError` in every numpy version instead of
returning the decoded entry. -/
theorem sparse_entry_count_cex :
    decompress_sparse_registers [5] 0 0 = .error PyExc.zeroDivisionError ∧
    decompress_sparse_registers (List.replicate 13 255) 98 6
      = .error (.overflowError "Python integer out of bounds for int32") := ⟨rfl, rfl⟩

/-- C6 amended: for entry widths `b + rbits` between 1 and 31 (positive,
so the entry-count division is defined, and at most 31 bits, so every
decoded field fits the `np.int32` output array exactly),
`decompress_sparse_registers` returns exactly
`(len(data) * 8) / (b + rbits)` entries, and for every in-range entry list
whose compressed output's zero padding fills one exact extra
`(b + rbits)`-bit slot, decompressing the compressed entries returns the
entries followed by one spurious `(0, 0)` entry. -/
theorem sparse_padding_behavior :
    (∀ (data : List Nat) (b rbits : Nat), 0 < b + rbits → b + rbits ≤ 31 →
        ∃ out, decompress_sparse_registers data b rbits = .ok out ∧
          out.length = data.length * 8 / (b + rbits)) ∧
    (∀ (E : List (Nat × Nat)) (b rbits : Nat), b + rbits ≤ 31 →
        (∀ p ∈ E, p.1 < 2 ^ b) → (∀ p ∈ E, p.2 < 2 ^ rbits) →
        8 * ((E.length * (b + rbits) + 7) / 8) / (b + rbits) = E.length + 1 →
        (compress_sparse_registers E b rbits).bind
          (fun data => decompress_sparse_registers data b rbits)
        = .ok (E ++ [(0, 0)])) := by
  constructor
  · intro data b rbits h h31
    refine ⟨_, decompress_eq data b rbits h h31, ?_⟩
    simp
  · intro E b rbits h31 hidx hrho hcnt
    have heb : 0 < b + rbits := by
      rcases Nat.eq_zero_or_pos (b + rbits) with h0 | h
      · rw [h0, Nat.div_zero] at hcnt; omega
      · exact h
    have hV := sparseVal_lt b rbits E hidx
    have hbits : E.length * (b + rbits) ≤ 8 * ((E.length * (b + rbits) + 7) / 8) := by omega
    have hVle : sparseVal rbits (b + rbits) E
        < 2 ^ (8 * ((E.length * (b + rbits) + 7) / 8)) :=
      lt_of_lt_of_le hV (Nat.pow_le_pow_right (by norm_num) hbits)
    have hcomp : compress_sparse_registers E b rbits
        = .ok (natToBytesLE ((E.length * (b + rbits) + 7) / 8)
            (sparseVal rbits (b + rbits) E)) := by
      show intToBytes (sparseBits rbits (b + rbits) 0 E)
          ((E.length * (b + rbits) + 7) / 8) = _
      rw [sparseBits_eq_sparseVal b rbits E hidx 0, pow_zero, one_mul]
      unfold intToBytes
      rw [if_pos hVle]
    rw [hcomp]
    show decompress_sparse_registers
        (natToBytesLE ((E.length * (b + rbits) + 7) / 8) (sparseVal rbits (b + rbits) E))
        b rbits = .ok (E ++ [(0, 0)])
    rw [decompress_eq _ b rbits heb h31, natToBytesLE_length, intFromBytes_natToBytes,
      Nat.mod_eq_of_lt hVle, Nat.mul_comm ((E.length * (b + rbits) + 7) / 8) 8, hcnt]
    refine congrArg Except.ok ?_
    apply List.ext_getElem
    · simp
    · intro i h1 h2
      simp only [List.getElem_map, List.getElem_range]
      have hi : i < E.length + 1 := by simpa using h1
      rcases Nat.lt_or_ge i E.length with hlt | hge
      · rw [sparseVal_extract b rbits E hidx i hlt]
        have hr : E[i].2 < 2 ^ rbits := hrho _ (List.getElem_mem hlt)
        have hs := entryVal_split rbits E[i].1 E[i].2 hr
        rw [Prod.mk.eta] at hs
        rw [hs.1, hs.2, List.getElem_append_left hlt]
      · have hieq : i = E.length := by omega
        subst hieq
        rw [Nat.div_eq_of_lt hV]
        simp

theorem sparseBits_map_rho (rbits eb : Nat) (E : List (Nat × Nat)) :
    ∀ t, sparseBits rbits eb t (E.map fun p => (p.1, p.2 % 2 ^ rbits))
      = sparseBits rbits eb t E := by
  induction E with
  | nil => intro t; rfl
  | cons p rest ih =>
    intro t
    obtain ⟨idx, rho⟩ := p
    show (((idx <<< rbits) ||| ((rho % 2 ^ rbits) &&& ((1 <<< rbits) - 1))) <<< t) |||
        sparseBits rbits eb (t + eb) (rest.map fun p => (p.1, p.2 % 2 ^ rbits))
      = (((idx <<< rbits) ||| (rho &&& ((1 <<< rbits) - 1))) <<< t) |||
        sparseBits rbits eb (t + eb) rest
    rw [ih (t + eb), Nat.one_shiftLeft, Nat.and_pow_two_sub_one_eq_mod,
      Nat.and_pow_two_sub_one_eq_mod, Nat.mod_mod_of_dvd _ dvd_rfl]

/-- C8 amended: `compress_sparse_registers` performs no range validation,
but an out-of-range `rho` cannot corrupt adjacent fields: it is masked to
its low `rbits` bits at encode time, so compressing any entry list gives
exactly the bytes of the same list with every `rho` reduced mod
`2 ^ rbits`.  An out-of-range `index`, by contrast, spills into adjacent
fields — compressing the out-of-range `[(16, 0), (0, 0)]` at `b = 4`,
`rbits = 6` silently yields bytes that decode to `[(0, 0), (0, 1)]` — and
an index so large that the accumulator outgrows the computed byte count
makes the final byte conversion raise `OverflowError` instead of
returning. -/
theorem sparse_no_validation_amended :
    (∀ (E : List (Nat × Nat)) (b rbits : Nat),
        compress_sparse_registers (E.map fun p => (p.1, p.2 % 2 ^ rbits)) b rbits
          = compress_sparse_registers E b rbits) ∧
    (compress_sparse_registers [(16, 0), (0, 0)] 4 6).bind
        (fun data => decompress_sparse_registers data 4 6) = .ok [(0, 0), (0, 1)] ∧
    compress_sparse_registers [(2048, 0)] 4 6
      = .error (.overflowError "int too big to convert") := by
  refine ⟨?_, rfl, rfl⟩
  intro E b rbits
  show intToBytes
      (sparseBits rbits (b + rbits) 0 (E.map fun p => (p.1, p.2 % 2 ^ rbits)))
      (((E.map fun p => (p.1, p.2 % 2 ^ rbits)).length * (b + rbits) + 7) / 8)
    = intToBytes (sparseBits rbits (b + rbits) 0 E) ((E.length * (b + rbits) + 7) / 8)
  rw [List.length_map, sparseBits_map_rho]

/-- Witness for C6: one byte decodes to `8 / 2 = 4` entries at `b = rbits = 1`,
and the three in-range entries `[(1, 1), (0, 1), (1, 0)]` (6 bits, padded to
one byte, whose padding holds one exact extra 2-bit slot) decompress to the
original entries followed by one spurious `(0, 0)` entry. -/
theorem sparse_padding_behavior_witness :
    (∃ out, decompress_sparse_registers [39] 1 1 = .ok out ∧
        out.length = List.length [39] * 8 / (1 + 1)) ∧
    (compress_sparse_registers [(1, 1), (0, 1), (1, 0)] 1 1).bind
        (fun data => decompress_sparse_registers data 1 1)
      = .ok ([(1, 1), (0, 1), (1, 0)] ++ [(0, 0)]) :=
  ⟨sparse_padding_behavior.1 [39] 1 1 (by decide) (by decide),
   sparse_padding_behavior.2 [(1, 1), (0, 1), (1, 0)] 1 1 (by decide) (by decide) (by decide)
     (by decide)⟩
